import Mathlib

/-!
# Verification of `go-attestation` (`attest/tpm.go`) against its specification

Shallow embedding of the TPM 2.0 attestation helpers from `attest/tpm.go`:
the vendor-string reconstruction (`readTPM2VendorAttributes`), the EK
certificate unwrapping and lenient parsing (`ParseEKCertificate`), the Intel
EK certificate URL derivation (`intelEKURL`), quoting (`quote20`), the bounded
PCR bank read (`readAllPCRs20`), the AIK template constant, and the AIK
blob round-trip (`LoadAIK` / `Serialize`, the latter modelled from the spec
because its body is not part of the sources under verification).

Go machine integers are modelled as `Nat` with explicit masks / `% 2 ^ w`
where overflow matters; Go `([]byte, error)` results become pairs with
`Option` errors; a Go runtime panic is a distinguished result constructor.
External collaborators (the `x509`/`asn1` decoders, `crypto/sha256`,
`tpm2.GetCapability`, `tpm2.ReadPCRs`, `tpm2.Quote`, `tpmutil.Pack`) are
parameters of the embedded functions, so every theorem quantifies over their
behaviour.
-/

namespace Attest

/-! ## C1: vendor string reconstruction (`readTPM2VendorAttributes`, lines 108-151)

The Go code builds the vendor string with
`string(subset.Value&0xFF000000) + string(subset.Value&0xFF0000) + ...`.
In Go, converting an unsigned integer to `string` yields the UTF-8 encoding
of that code point, with every value above `0x10FFFF` (and the surrogate
range) replaced by U+FFFD (`EF BF BD`).  We embed that conversion exactly. -/

/-- UTF-8 encoding of a valid Unicode code point, as byte values. -/
def utf8Bytes (n : Nat) : List Nat :=
  if n < 0x80 then [n]
  else if n < 0x800 then [0xC0 + n / 64, 0x80 + n % 64]
  else if n < 0x10000 then [0xE0 + n / 4096, 0x80 + n / 64 % 64, 0x80 + n % 64]
  else [0xF0 + n / 262144, 0x80 + n / 4096 % 64, 0x80 + n / 64 % 64, 0x80 + n % 64]

/-- Go's `string(i)` conversion for an unsigned integer `i`: the UTF-8 bytes of
the code point, or U+FFFD (`EF BF BD`) when `i` is not a valid code point
(above `0x10FFFF` or in the surrogate range). -/
def goStringOfInt (n : Nat) : List Nat :=
  if 0x10FFFF < n ∨ (0xD800 ≤ n ∧ n ≤ 0xDFFF) then [0xEF, 0xBF, 0xBD] else utf8Bytes n

/-- One loop iteration of `readTPM2VendorAttributes` (tpm.go line 124): the four
masked-but-unshifted `string(...)` conversions of a capability value. -/
def vendorChunk (v : Nat) : List Nat :=
  goStringOfInt (v &&& 0xFF000000) ++ goStringOfInt (v &&& 0x00FF0000) ++
    goStringOfInt (v &&& 0xFF00) ++ goStringOfInt (v &&& 0xFF)

/-- `strings.Trim(s, "\x00")` on a byte string: remove leading and trailing
NUL bytes (a NUL rune is the single byte `0x00`, and `0x00` never occurs
inside a multi-byte UTF-8 sequence). -/
def trimNul (s : List Nat) : List Nat :=
  ((s.dropWhile (· = 0)).reverse.dropWhile (· = 0)).reverse

/-- The vendor string computed by `readTPM2VendorAttributes` (tpm.go lines
114-125 and 146) from the four successfully read capability values. -/
def readTPM2VendorString (vs : List Nat) : List Nat :=
  trimNul (vs.map vendorChunk).flatten

/-- Strip trailing NUL bytes only (the claim's wording). -/
def trimTrailingNul (s : List Nat) : List Nat :=
  (s.reverse.dropWhile (· = 0)).reverse

/-- The vendor string as the claim (and spec) describe it: for each value in
query order, its four big-endian ASCII octets, then trailing NUL padding
stripped.  This definition follows the spec's words, for comparison with
`readTPM2VendorString`, which follows the code. -/
def claimVendorString (vs : List Nat) : List Nat :=
  trimTrailingNul
    (vs.map fun v =>
      [v >>> 24 &&& 0xFF, v >>> 16 &&& 0xFF, v >>> 8 &&& 0xFF, v &&& 0xFF]).flatten

/-- C1: the claim says four successful capability reads `v0..v3` yield the
concatenation of each value's big-endian ASCII octets (trailing NULs
stripped).  The code instead converts each masked 32-bit value with Go's
integer-to-string conversion without shifting, so any non-zero high byte
becomes a UTF-8 replacement character or a multi-byte sequence.  At reads
`[0x41414141, 0, 0, 0]` the claim (and the code's own comment, "Reconstruct
the 4 ASCII octets") demand `"AAAA"`, but the code produces
`EF BF BD  EF BF BD  E4 84 80  41`. -/
theorem c1_vendor_string_reconstruction_bug :
    readTPM2VendorString [0x41414141, 0, 0, 0] =
      [0xEF, 0xBF, 0xBD, 0xEF, 0xBF, 0xBD, 0xE4, 0x84, 0x80, 0x41] ∧
    claimVendorString [0x41414141, 0, 0, 0] = [0x41, 0x41, 0x41, 0x41] ∧
    readTPM2VendorString [0x41414141, 0, 0, 0] ≠
      claimVendorString [0x41414141, 0, 0, 0] := by
  refine ⟨by decide, by decide, by decide⟩

/-! ## C3/C4/C5: `ParseEKCertificate` (tpm.go lines 154-189)

The certificate value and error values of the external `x509`/`asn1`
collaborators are abstract (`Cert := List Nat`, errors are `Nat` codes);
their behaviour is a parameter `X509Env`.  The NVRAM unwrap step is embedded
with Go's `uint16` arithmetic (`certLen+5` and `5+certLen` wrap mod 65536)
and Go slice-bounds semantics: an out-of-range slice is a runtime panic,
modelled as the distinguished result `UnwrapResult.panic`. -/

/-- Abstract `*x509.Certificate` value. -/
def Cert : Type := List Nat

instance : DecidableEq Cert := by
  unfold Cert
  infer_instance

/-- Behaviour of the external certificate decoders used by
`ParseEKCertificate`: Go's `x509.ParseCertificate` returns a pair
`(*Certificate, error)`, `asn1.UnmarshalWithParams(..., "lax")` fills
`cert.Raw` and returns an error, and `x509.IsFatal` classifies errors. -/
structure X509Env where
  parseCertificate : List Nat → Option Cert × Option Nat
  laxUnmarshal : List Nat → List Nat × Option Nat
  isFatal : Nat → Bool

/-- `x509.IsFatal` applied to a Go `error` that may be `nil`
(the `err != nil && x509.IsFatal(err)` pattern). -/
def fatalOpt (env : X509Env) : Option Nat → Bool
  | none => false
  | some e => env.isFatal e

/-- Result of the NVRAM unwrap step (tpm.go lines 160-167). -/
inductive UnwrapResult where
  | panic
  | headerErr (sz certLen : Nat)
  | ok (body : List Nat)
deriving DecidableEq

/-- Go slice expression `xs[lo:hi]`: defined when `0 ≤ lo ≤ hi ≤ len(xs)`,
a runtime panic (`none`) otherwise. -/
def goSlice (xs : List Nat) (lo hi : Nat) : Option (List Nat) :=
  if lo ≤ hi ∧ hi ≤ xs.length then some ((xs.drop lo).take (hi - lo)) else none

/-- The NVRAM-header unwrap step of `ParseEKCertificate` (tpm.go lines
160-167).  `certLen` is the big-endian `uint16` at offset 3; both
`int(certLen+5)` and the slice bound `5+certLen` are computed in `uint16`
arithmetic, hence the `% 65536`. -/
def unwrapNV (ekCert : List Nat) : UnwrapResult :=
  if 5 < ekCert.length ∧ ekCert.take 3 = [0x10, 0x01, 0x00] then
    let certLen := ekCert.getD 3 0 * 256 + ekCert.getD 4 0
    let bound := (certLen + 5) % 65536
    if ekCert.length < bound then .headerErr ekCert.length certLen
    else
      match goSlice ekCert 5 bound with
      | some body => .ok body
      | none => .panic
  else .ok ekCert

/-- Errors produced by `ParseEKCertificate`, one constructor per `return`
site carrying an error (tpm.go lines 163, 181, 186). -/
inductive EKErr where
  | nvramHeader (sz certLen : Nat)
  | asn1Fatal (e : Nat)
  | x509Fatal (e : Nat)
deriving DecidableEq

/-- Overall result of `ParseEKCertificate`: a Go `(*Certificate, error)`
pair, or a runtime panic. -/
inductive EKResult where
  | panic
  | ret (cert : Option Cert) (err : Option EKErr)
deriving DecidableEq

/-- The error component of an `EKResult`. -/
def EKResult.errOf : EKResult → Option EKErr
  | .panic => none
  | .ret _ e => e

/-- The retried strict parse on the leniently extracted slice (tpm.go lines
184-188): a fatal error propagates, any other error is dropped and the
(possibly nil) certificate is returned with a nil error. -/
def parseEKRetry (env : X509Env) (raw : List Nat) : Option Cert × Option EKErr :=
  match env.parseCertificate raw with
  | (c, none) => (c, none)
  | (c, some e) => if env.isFatal e then (none, some (.x509Fatal e)) else (c, none)

/-- The parsing pipeline of `ParseEKCertificate` after unwrapping (tpm.go
lines 169-188): strict parse, then lenient `asn1` re-extraction (a fatal
extraction error propagates), then the retried strict parse. -/
def parseEKBody (env : X509Env) (b : List Nat) : Option Cert × Option EKErr :=
  match env.parseCertificate b with
  | (c, none) => (c, none)
  | (_, some _) =>
    match (env.laxUnmarshal b).2 with
    | some e =>
      if env.isFatal e then (none, some (.asn1Fatal e))
      else parseEKRetry env (env.laxUnmarshal b).1
    | none => parseEKRetry env (env.laxUnmarshal b).1

/-- `ParseEKCertificate` (tpm.go lines 154-189). -/
def ParseEKCertificate (env : X509Env) (ekCert : List Nat) : EKResult :=
  match unwrapNV ekCert with
  | .panic => .panic
  | .headerErr sz cl => .ret none (some (.nvramHeader sz cl))
  | .ok b =>
    match parseEKBody env b with
    | (c, e) => .ret c e

/-- C3: on every input whose NVRAM unwrap yields body `b`,
`ParseEKCertificate` (1) returns the strict parse's certificate with no error
whenever the strict parse of `b` succeeds, and (2) returns an error exactly
when the strict parse fails and a fatal decode error occurs on the lenient
`asn1` extraction or on the retried strict parse of the extracted slice — so
a fatal decode error is never swallowed. -/
theorem c3_strict_then_lenient_error_iff (env : X509Env) (input b : List Nat)
    (hw : unwrapNV input = .ok b) :
    ((env.parseCertificate b).2 = none →
      ParseEKCertificate env input = .ret (env.parseCertificate b).1 none) ∧
    ((ParseEKCertificate env input).errOf ≠ none ↔
      ((env.parseCertificate b).2 ≠ none ∧
        (fatalOpt env (env.laxUnmarshal b).2 = true ∨
          fatalOpt env (env.parseCertificate (env.laxUnmarshal b).1).2 = true))) := by
  have hbody : ParseEKCertificate env input = .ret (parseEKBody env b).1 (parseEKBody env b).2 := by
    simp [ParseEKCertificate, hw]
  constructor
  · intro hok
    rw [hbody]
    rcases hpc : env.parseCertificate b with ⟨c, oe⟩
    rw [hpc] at hok
    simp only at hok
    subst hok
    simp [parseEKBody, hpc]
  · rw [hbody]
    rcases hpc : env.parseCertificate b with ⟨c, oe⟩
    cases oe with
    | none =>
      simp [parseEKBody, hpc, EKResult.errOf]
    | some e0 =>
      rcases hlu : env.laxUnmarshal b with ⟨raw, ue⟩
      cases ue with
      | none =>
        rcases hrc : env.parseCertificate raw with ⟨c2, re⟩
        cases re with
        | none =>
          simp [parseEKBody, hpc, hlu, parseEKRetry, hrc, EKResult.errOf, fatalOpt]
        | some e2 =>
          by_cases hf : env.isFatal e2
          · simp [parseEKBody, hpc, hlu, parseEKRetry, hrc, EKResult.errOf, fatalOpt, hf]
          · simp [parseEKBody, hpc, hlu, parseEKRetry, hrc, EKResult.errOf, fatalOpt, hf]
      | some e1 =>
        by_cases hf1 : env.isFatal e1
        · simp [parseEKBody, hpc, hlu, EKResult.errOf, fatalOpt, hf1]
        · rcases hrc : env.parseCertificate raw with ⟨c2, re⟩
          cases re with
          | none =>
            simp [parseEKBody, hpc, hlu, parseEKRetry, hrc, EKResult.errOf, fatalOpt, hf1]
          | some e2 =>
            by_cases hf2 : env.isFatal e2
            · simp [parseEKBody, hpc, hlu, parseEKRetry, hrc, EKResult.errOf, fatalOpt, hf1, hf2]
            · simp [parseEKBody, hpc, hlu, parseEKRetry, hrc, EKResult.errOf, fatalOpt, hf1, hf2]

/-- Concrete collaborator instance for witnesses and counterexamples:
strict parsing always succeeds, returning the input bytes as the
certificate; lenient extraction returns the input unchanged with no error;
every error is fatal. -/
def env0 : X509Env where
  parseCertificate := fun b => (some b, none)
  laxUnmarshal := fun b => (b, none)
  isFatal := fun _ => true

/-- Witness for `c3_strict_then_lenient_error_iff` at `env0` and the
unwrapped input `[0x30]`. -/
theorem c3_strict_then_lenient_error_iff_witness :
    ((env0.parseCertificate [0x30]).2 = none →
      ParseEKCertificate env0 [0x30] = .ret (env0.parseCertificate [0x30]).1 none) ∧
    ((ParseEKCertificate env0 [0x30]).errOf ≠ none ↔
      ((env0.parseCertificate [0x30]).2 ≠ none ∧
        (fatalOpt env0 (env0.laxUnmarshal [0x30]).2 = true ∨
          fatalOpt env0 (env0.parseCertificate (env0.laxUnmarshal [0x30]).1).2 = true))) :=
  c3_strict_then_lenient_error_iff env0 [0x30] [0x30] (by decide)

/-- C5: at the six-byte input `10 01 00 FF FF 00` the declared certificate
length is `0xFFFF = 65535`; `certLen+5` wraps to `4` in `uint16` arithmetic,
so the header length check passes and the slice `ekCert[5:4]` is out of
range: `ParseEKCertificate` panics (for every collaborator behaviour)
instead of returning a certificate or an error as the claim requires. -/
theorem c5_uint16_overflow_panics (env : X509Env) :
    ParseEKCertificate env [0x10, 0x01, 0x00, 0xFF, 0xFF, 0x00] = .panic := rfl

/-- The wrapped NVRAM form of a certificate blob `c` (TCG PC spec section
7.3.2): the 3-byte tag `10 01 00`, the 2-byte big-endian length of `c`, `c`
itself, and arbitrary trailing bytes. -/
def nvWrap (c trailing : List Nat) : List Nat :=
  0x10 :: 0x01 :: 0x00 :: (c.length / 256 % 256) :: (c.length % 256) :: (c ++ trailing)

/-- C4 (amended): for every payload `c` with `1 ≤ len(c) ≤ 65530` that does
not itself begin with the 3-byte NVRAM tag while being longer than 5 bytes,
`ParseEKCertificate` on the wrapped form unwraps exactly the payload bytes
`c` (slicing to the declared length, ignoring trailing bytes) and yields the
same result as `ParseEKCertificate` on `c` alone, for every collaborator
behaviour.  The original bounds `len(c) ≤ 65535` fail because declared
lengths above 65530 make the `uint16` bound `5+certLen` wrap and the slice
panic, and a tag-carrying payload is unwrapped a second time when passed
alone. -/
theorem c4_wrapped_matches_unwrapped (env : X509Env) (c trailing : List Nat)
    (h1 : 1 ≤ c.length) (h2 : c.length ≤ 65530)
    (h3 : ¬(5 < c.length ∧ c.take 3 = [0x10, 0x01, 0x00])) :
    unwrapNV (nvWrap c trailing) = .ok c ∧
    ParseEKCertificate env (nvWrap c trailing) = ParseEKCertificate env c := by
  have hlen : (nvWrap c trailing).length = (c.length + trailing.length) + 5 := by
    simp [nvWrap]
  have htake : (nvWrap c trailing).take 3 = [0x10, 0x01, 0x00] := rfl
  have hgetD3 : (nvWrap c trailing).getD 3 0 = c.length / 256 % 256 := rfl
  have hgetD4 : (nvWrap c trailing).getD 4 0 = c.length % 256 := rfl
  have hslice : goSlice (nvWrap c trailing) 5 (c.length + 5) = some c := by
    unfold goSlice
    rw [if_pos ⟨by omega, by rw [hlen]; omega⟩]
    have hdrop : (nvWrap c trailing).drop 5 = c ++ trailing := rfl
    rw [hdrop]
    have h55 : c.length + 5 - 5 = c.length := by omega
    rw [h55]
    exact congrArg some (List.take_left _ _)
  have hun : unwrapNV (nvWrap c trailing) = .ok c := by
    simp only [unwrapNV]
    rw [htake, hgetD3, hgetD4, hlen]
    have hql : c.length / 256 % 256 * 256 + c.length % 256 = c.length := by omega
    rw [hql]
    have hb : (c.length + 5) % 65536 = c.length + 5 := by omega
    rw [hb]
    rw [if_pos ⟨by omega, rfl⟩, if_neg (by omega), hslice]
  have hunc : unwrapNV c = .ok c := by
    simp only [unwrapNV]
    rw [if_neg h3]
  refine ⟨hun, ?_⟩
  simp [ParseEKCertificate, hun, hunc]

/-- Witness for `c4_wrapped_matches_unwrapped` at `env0`, `c = [0x30]`, no
trailing bytes. -/
theorem c4_wrapped_matches_unwrapped_witness :
    unwrapNV (nvWrap [0x30] []) = .ok [0x30] ∧
    ParseEKCertificate env0 (nvWrap [0x30] []) = ParseEKCertificate env0 [0x30] :=
  c4_wrapped_matches_unwrapped env0 [0x30] [] (by decide) (by decide) (by decide)

/-- If the NVRAM unwrap step panics, so does `ParseEKCertificate`. -/
theorem unwrapPanicParse (env : X509Env) (input : List Nat)
    (h : unwrapNV input = .panic) : ParseEKCertificate env input = .panic := by
  simp [ParseEKCertificate, h]

/-- If the NVRAM unwrap step succeeds, `ParseEKCertificate` does not panic. -/
theorem unwrapOkNePanic (env : X509Env) (input b : List Nat)
    (h : unwrapNV input = .ok b) : ParseEKCertificate env input ≠ .panic := by
  simp only [ParseEKCertificate, h]
  rcases hpb : parseEKBody env b with ⟨c, e⟩
  simp

/-- Declared lengths of 65531 and above make the `uint16` slice bound
`5+certLen` wrap below 5, so the unwrap step always panics. -/
theorem nvWrapOverflowPanics (c t : List Nat)
    (h1 : 65531 ≤ c.length) (h2 : c.length ≤ 65535) :
    unwrapNV (nvWrap c t) = .panic := by
  have hlen : (nvWrap c t).length = (c.length + t.length) + 5 := by
    simp [nvWrap]
  have htake : (nvWrap c t).take 3 = [0x10, 0x01, 0x00] := rfl
  have hgetD3 : (nvWrap c t).getD 3 0 = c.length / 256 % 256 := rfl
  have hgetD4 : (nvWrap c t).getD 4 0 = c.length % 256 := rfl
  have hslice : goSlice (nvWrap c t) 5 ((c.length + 5) % 65536) = none := by
    unfold goSlice
    rw [if_neg]
    intro hcon
    omega
  simp only [unwrapNV]
  rw [htake, hgetD3, hgetD4, hlen]
  have hql : c.length / 256 % 256 * 256 + c.length % 256 = c.length := by omega
  rw [hql]
  rw [if_pos ⟨by omega, rfl⟩, if_neg (by omega), hslice]

/-- C4 counterexample to the claim as stated (two instances, one per forced
amendment).  First, a payload that itself begins with the NVRAM tag: with the
collaborators `env0`, parsing the wrapped form operates on the payload `c`,
but parsing `c` alone unwraps it a second time, so the two results differ.
Second, a payload of length `65531` (within the claimed bound `65535`): the
wrapped form panics from the `uint16` overflow of the slice bound, while the
payload alone parses without panicking. -/
theorem c4_claim_counterexample :
    (ParseEKCertificate env0 (nvWrap [0x10, 0x01, 0x00, 0x00, 0x01, 0x41] []) ≠
      ParseEKCertificate env0 [0x10, 0x01, 0x00, 0x00, 0x01, 0x41]) ∧
    (ParseEKCertificate env0 (nvWrap (List.replicate 65531 0) []) = .panic ∧
      ParseEKCertificate env0 (List.replicate 65531 0) ≠ .panic) := by
  have hlen : (List.replicate 65531 (0 : Nat)).length = 65531 := by
    rw [List.length_replicate]
  refine ⟨by decide, ?_, ?_⟩
  · have hup : unwrapNV (nvWrap (List.replicate 65531 0) []) = .panic :=
      nvWrapOverflowPanics _ _ (by rw [hlen]) (by rw [hlen]; norm_num)
    exact unwrapPanicParse env0 _ hup
  · have htake : (List.replicate 65531 (0 : Nat)).take 3 = [0, 0, 0] := by
      rw [List.take_replicate]
      have h3m : (3 : Nat) ⊓ 65531 = 3 := by norm_num
      rw [h3m]
      decide
    have hun : unwrapNV (List.replicate 65531 0) = .ok (List.replicate 65531 0) := by
      simp only [unwrapNV]
      rw [if_neg]
      rw [htake]
      intro h
      exact absurd h.2 (by decide)
    exact unwrapOkNePanic env0 _ _ hun

/-! ## C6/C8: `quote20` (tpm.go lines 212-230)

`tpm2.Quote` and `tpmutil.Pack` are external collaborators, passed as
parameters.  Go's `tpm2.Quote(tpm, aikHandle, "", "", nonce, sel,
tpm2.AlgNull)` returns `([]byte, *Signature, error)`; `tpmutil.Pack`
returns `([]byte, error)`.  `quote20` returns the Go pair
`(*Quote, error)`, i.e. both components may independently be set. -/

/-- `tpm2.PCRSelection`: a hash algorithm and a list of PCR indices. -/
structure PCRSelection where
  hash : Nat
  pcrs : List Nat
deriving DecidableEq

/-- The `tpm2.Signature` fields read by `quote20`. -/
structure TPMSig where
  alg : Nat
  rsaHashAlg : Nat
  rsaSignature : List Nat
deriving DecidableEq

/-- The `attest.Quote` structure populated by `quote20`. -/
structure Quote where
  version : Nat
  quote : List Nat
  signature : List Nat
deriving DecidableEq

/-- `attest.TPMVersion20`. -/
def TPMVersion20 : Nat := 2

/-- The PCR selection built by the loop in `quote20` (tpm.go lines 213-217):
start from `{Hash: hashAlg}` and append PCR indices `0..23`. -/
def quoteSelection (hashAlg : Nat) : PCRSelection :=
  (List.range 24).foldl
    (fun sel pcr => { sel with pcrs := sel.pcrs.concat pcr })
    { hash := hashAlg, pcrs := [] }

/-- `quote20` (tpm.go lines 212-230), parameterized by the behaviour of
`tpm2.Quote` (handle, nonce and PCR selection to `(quote, sig, err)`) and of
`tpmutil.Pack` (the three signature fields to `(raw, err)`). -/
def quote20
    (tpmQuote : Nat → List Nat → PCRSelection → List Nat × TPMSig × Option Nat)
    (pack : Nat → Nat → List Nat → List Nat × Option Nat)
    (aikHandle : Nat) (hashAlg : Nat) (nonce : List Nat) :
    Option Quote × Option Nat :=
  match tpmQuote aikHandle nonce (quoteSelection hashAlg) with
  | (_, _, some e) => (none, some e)
  | (q, sig, none) =>
    match pack sig.alg sig.rsaHashAlg sig.rsaSignature with
    | (rawSig, perr) =>
      (some { version := TPMVersion20, quote := q, signature := rawSig }, perr)

/-- The fold in `quoteSelection` appends the fold range to the accumulator
and leaves the hash field unchanged. -/
theorem quoteSelectionFold (l : List Nat) (sel : PCRSelection) :
    (l.foldl (fun s pcr => { s with pcrs := s.pcrs.concat pcr }) sel) =
      { hash := sel.hash, pcrs := sel.pcrs ++ l } := by
  induction l generalizing sel with
  | nil => simp
  | cons x xs ih =>
    rw [List.foldl_cons, ih]
    simp

/-- C6: `quote20` issues its quote request over the PCR selection whose hash
is the supplied algorithm and whose index list is exactly `0..23` (each index
once), at the caller-supplied nonce and handle; and its result is a function
of the collaborator's response to exactly that request, so each call is a
fresh `tpm2.Quote` invocation with no caching across nonces. -/
theorem c6_quote_selection_full_bank (hashAlg : Nat)
    (tq1 tq2 : Nat → List Nat → PCRSelection → List Nat × TPMSig × Option Nat)
    (pack : Nat → Nat → List Nat → List Nat × Option Nat)
    (handle : Nat) (nonce : List Nat)
    (hagree : tq1 handle nonce (quoteSelection hashAlg) =
      tq2 handle nonce (quoteSelection hashAlg)) :
    ((quoteSelection hashAlg).hash = hashAlg ∧
      (quoteSelection hashAlg).pcrs = List.range 24 ∧
      (∀ k, k ∈ (quoteSelection hashAlg).pcrs ↔ k < 24) ∧
      (quoteSelection hashAlg).pcrs.Nodup) ∧
    quote20 tq1 pack handle hashAlg nonce = quote20 tq2 pack handle hashAlg nonce := by
  have hsel : quoteSelection hashAlg = { hash := hashAlg, pcrs := List.range 24 } := by
    rw [quoteSelection, quoteSelectionFold]
    simp
  refine ⟨⟨by rw [hsel], by rw [hsel], ?_, ?_⟩, ?_⟩
  · intro k
    rw [hsel]
    exact List.mem_range
  · rw [hsel]
    exact List.nodup_range 24
  · rw [quote20, quote20, hagree]

/-- Collaborator instances for quote witnesses/counterexamples: a quote
command that succeeds and a packing step that fails with error `7`. -/
def tqOk : Nat → List Nat → PCRSelection → List Nat × TPMSig × Option Nat :=
  fun _ _ _ => ([1], { alg := 20, rsaHashAlg := 11, rsaSignature := [2] }, none)

/-- A `tpmutil.Pack` behaviour that always fails with error `7`. -/
def packFail : Nat → Nat → List Nat → List Nat × Option Nat :=
  fun _ _ _ => ([], some 7)

/-- Witness for `c6_quote_selection_full_bank` at a concrete collaborator,
handle `1`, hash algorithm `11` and nonce `[9]`. -/
theorem c6_quote_selection_full_bank_witness :
    ((quoteSelection 11).hash = 11 ∧
      (quoteSelection 11).pcrs = List.range 24 ∧
      (∀ k, k ∈ (quoteSelection 11).pcrs ↔ k < 24) ∧
      (quoteSelection 11).pcrs.Nodup) ∧
    quote20 tqOk packFail 1 11 [9] = quote20 tqOk packFail 1 11 [9] :=
  c6_quote_selection_full_bank 11 tqOk tqOk packFail 1 [9] rfl

/-- C8 counterexample: when the quote command succeeds but `tpmutil.Pack`
fails, `quote20` returns the packing error together with a non-nil,
partially-constructed `Quote` — so a non-nil error does not imply a nil
`Quote` pointer. -/
theorem c8_claim_counterexample :
    (quote20 tqOk packFail 1 11 [9]).2 ≠ none ∧
    (quote20 tqOk packFail 1 11 [9]).1 ≠ none := by
  refine ⟨by decide, by decide⟩

/-- C8 (amended): if the `tpm2.Quote` command itself fails, `quote20` returns
a nil `Quote` with that error; if the command succeeds but signature packing
fails, `quote20` returns the packing error alongside the non-nil
partially-constructed `Quote` built from the command's output. -/
theorem c8_error_quote_shape
    (tq : Nat → List Nat → PCRSelection → List Nat × TPMSig × Option Nat)
    (pack : Nat → Nat → List Nat → List Nat × Option Nat)
    (handle hashAlg : Nat) (nonce : List Nat) :
    (∀ q s e, tq handle nonce (quoteSelection hashAlg) = (q, s, some e) →
      quote20 tq pack handle hashAlg nonce = (none, some e)) ∧
    (∀ q s raw e, tq handle nonce (quoteSelection hashAlg) = (q, s, none) →
      pack s.alg s.rsaHashAlg s.rsaSignature = (raw, some e) →
      quote20 tq pack handle hashAlg nonce =
        (some { version := TPMVersion20, quote := q, signature := raw }, some e)) := by
  constructor
  · intro q s e hq
    rw [quote20, hq]
  · intro q s raw e hq hp
    rw [quote20, hq]
    simp only
    rw [hp]

/-- Witness for `c8_error_quote_shape`: with the succeeding quote command and
the failing packer, the packing error is returned with the non-nil quote. -/
theorem c8_error_quote_shape_witness :
    quote20 tqOk packFail 1 11 [9] =
      (some { version := TPMVersion20, quote := [1], signature := [] }, some 7) :=
  (c8_error_quote_shape tqOk packFail 1 11 [9]).2
    [1] { alg := 20, rsaHashAlg := 11, rsaSignature := [2] } [] 7 rfl rfl

/-! ## C7: `intelEKURL` (tpm.go lines 191-202)

`crypto/sha256` is an external collaborator: the hash object is modelled as
its accumulated input bytes (`Write` appends, `Sum(nil)` applies an abstract
digest function to the accumulated bytes).  `big.Int.Bytes()` is the minimal
big-endian byte string of the modulus.  `base64.URLEncoding.EncodeToString`
(unpadded alphabet `A-Z a-z 0-9 - _` with `=` padding) is embedded
concretely. -/

/-- `sha256.New()`: an empty accumulated-input state. -/
def sha256New : List Nat := []

/-- `h.Write(bs)`: append `bs` to the accumulated input. -/
def hashWrite (state bs : List Nat) : List Nat := state ++ bs

/-- `h.Sum(nil)`: the digest of the accumulated input, for an abstract
digest function. -/
def hashSum (digest : List Nat → List Nat) (state : List Nat) : List Nat :=
  digest state

/-- `big.Int.Bytes()`: minimal big-endian bytes of a natural number (empty
for zero). -/
def natBytesBE : Nat → List Nat
  | 0 => []
  | n + 1 => natBytesBE ((n + 1) / 256) ++ [(n + 1) % 256]
decreasing_by exact Nat.div_lt_self (Nat.succ_pos n) (by norm_num)

/-- The base64url alphabet (RFC 4648 section 5). -/
def base64Chars : List Char :=
  "ABCDEFGHIJKLMNOPQRSTUVWXYZabcdefghijklmnopqrstuvwxyz0123456789-_".toList

/-- Character `i` of the base64url alphabet. -/
def b64c (i : Nat) : Char := base64Chars.getD i 'A'

/-- `base64.URLEncoding.EncodeToString`: standard base64 with the URL-safe
alphabet and `=` padding. -/
def base64urlEncode : List Nat → List Char
  | [] => []
  | [b1] => [b64c (b1 / 4), b64c (b1 % 4 * 16), '=', '=']
  | [b1, b2] => [b64c (b1 / 4), b64c (b1 % 4 * 16 + b2 / 16), b64c (b2 % 16 * 4), '=']
  | b1 :: b2 :: b3 :: rest =>
    b64c (b1 / 4) :: b64c (b1 % 4 * 16 + b2 / 16) ::
      b64c (b2 % 16 * 4 + b3 / 64) :: b64c (b3 % 64) :: base64urlEncode rest

/-- `intelEKCertServiceURL` (tpm.go line 193). -/
def intelEKCertServiceURL : String := "https://ekop.intel.com/ekcertservice/"

/-- `intelEKURL` (tpm.go lines 196-202): hash the modulus bytes, then the
fixed exponent bytes `01 00 01`, and append the base64url digest to the
service URL.  `ekPubN` is the RSA public modulus `ekPub.N`. -/
def intelEKURL (digest : List Nat → List Nat) (ekPubN : Nat) : String :=
  let pubHash := sha256New
  let pubHash := hashWrite pubHash (natBytesBE ekPubN)
  let pubHash := hashWrite pubHash [0x1, 0x00, 0x01]
  intelEKCertServiceURL ++ String.mk (base64urlEncode (hashSum digest pubHash))

/-- C7: for every digest behaviour and every modulus, `intelEKURL` is the
fixed service URL followed by the base64url encoding of the digest of the
big-endian modulus bytes concatenated with the fixed public exponent bytes
`01 00 01`; the derivation is a pure function of the modulus, hence
deterministic. -/
theorem c7_intel_ek_url (digest : List Nat → List Nat) (n : Nat) :
    intelEKURL digest n =
      "https://ekop.intel.com/ekcertservice/" ++
        String.mk (base64urlEncode (digest (natBytesBE n ++ [0x01, 0x00, 0x01]))) := by
  rw [intelEKURL]
  simp only [sha256New, hashWrite, hashSum, List.nil_append]
  rfl

/-! ## C9: `aikTemplate` (tpm.go lines 48-59)

The `tpm2` algorithm identifiers and attribute flags are external library
constants; their numeric values below are those of `go-tpm`'s `tpm2`
package (TCG Algorithm Registry / TPM 2.0 Part 2 structures). -/

/-- `tpm2.AlgRSA`. -/
def AlgRSA : Nat := 0x0001

/-- `tpm2.AlgSHA256`. -/
def AlgSHA256 : Nat := 0x000B

/-- `tpm2.AlgRSASSA`. -/
def AlgRSASSA : Nat := 0x0014

/-- `tpm2.FlagFixedTPM`. -/
def FlagFixedTPM : Nat := 0x00000002

/-- `tpm2.FlagFixedParent`. -/
def FlagFixedParent : Nat := 0x00000010

/-- `tpm2.FlagSensitiveDataOrigin`. -/
def FlagSensitiveDataOrigin : Nat := 0x00000020

/-- `tpm2.FlagUserWithAuth`. -/
def FlagUserWithAuth : Nat := 0x00000040

/-- `tpm2.FlagRestricted`. -/
def FlagRestricted : Nat := 0x00010000

/-- `tpm2.FlagDecrypt`. -/
def FlagDecrypt : Nat := 0x00020000

/-- `tpm2.FlagSign`. -/
def FlagSign : Nat := 0x00040000

/-- `tpm2.FlagSignerDefault`: the default attribute set for signing keys. -/
def FlagSignerDefault : Nat :=
  FlagSign ||| FlagRestricted ||| FlagFixedTPM ||| FlagFixedParent |||
    FlagSensitiveDataOrigin ||| FlagUserWithAuth

/-- `tpm2.SigScheme` (the fields set by the template). -/
structure SigScheme where
  alg : Nat
  hash : Nat
deriving DecidableEq

/-- `tpm2.RSAParams` (the fields set by `aikTemplate`). -/
structure RSAParams where
  sign : Option SigScheme
  keyBits : Nat
deriving DecidableEq

/-- `tpm2.Public` (the fields set by `aikTemplate`). -/
structure TPMPublic where
  keyType : Nat
  nameAlg : Nat
  attributes : Nat
  rsaParameters : Option RSAParams
deriving DecidableEq

/-- `aikTemplate` (tpm.go lines 48-59): the fixed AIK creation template,
a package-level value constructed once at initialization and never written
by any function in the file. -/
def aikTemplate : TPMPublic where
  keyType := AlgRSA
  nameAlg := AlgSHA256
  attributes := FlagSignerDefault
  rsaParameters := some { sign := some { alg := AlgRSASSA, hash := AlgSHA256 }, keyBits := 2048 }

/-- C9: the AIK template is the fixed configuration value with RSA type,
SHA-256 name algorithm, the signing-only default attribute flags (sign set,
decrypt clear), a 2048-bit key size and an RSASSA/SHA-256 signing scheme;
in this embedding it is a constant, which no operation can mutate. -/
theorem c9_aik_template_fixed :
    aikTemplate.keyType = AlgRSA ∧
    aikTemplate.nameAlg = AlgSHA256 ∧
    aikTemplate.attributes = FlagSignerDefault ∧
    aikTemplate.attributes &&& FlagSign ≠ 0 ∧
    aikTemplate.attributes &&& FlagDecrypt = 0 ∧
    aikTemplate.rsaParameters =
      some { sign := some { alg := AlgRSASSA, hash := AlgSHA256 }, keyBits := 2048 } := by
  refine ⟨rfl, rfl, rfl, by decide, by decide, rfl⟩

/-! ## C2: `readAllPCRs20` (tpm.go lines 232-268)

The Go accumulator `out` is a `map[uint32][]byte`; it is embedded as an
association list with distinct keys (`pcrStore` replaces an existing key in
place, so `len(out)` is the list length).  `tpm2.ReadPCRs` is a collaborator
indexed by the round number and the requested selection; its result map is a
list of `(index, digest)` pairs. -/

/-- Lookup in the `out` map (`_, present := out[pcr]`). -/
def pcrLookup (k : Nat) : List (Nat × List Nat) → Option (List Nat)
  | [] => none
  | (k2, v) :: rest => if k2 = k then some v else pcrLookup k rest

/-- Map store `out[pcr] = digest`: replace the existing entry or append. -/
def pcrStore (m : List (Nat × List Nat)) (k : Nat) (v : List Nat) :
    List (Nat × List Nat) :=
  match m with
  | [] => [(k, v)]
  | (k2, v2) :: rest => if k2 = k then (k, v) :: rest else (k2, v2) :: pcrStore rest k v

/-- The merge loop `for pcr, digest := range ret { out[uint32(pcr)] = digest }`. -/
def pcrStoreAll (m ret : List (Nat × List Nat)) : List (Nat × List Nat) :=
  ret.foldl (fun acc p => pcrStore acc p.1 p.2) m

/-- The selection built each round (tpm.go lines 242-247): all indices in
`0..23` for which `out` has no value, in increasing order. -/
def pcrMissing (out : List (Nat × List Nat)) : List Nat :=
  (List.range 24).filter fun p => (pcrLookup p out).isNone

/-- Errors of `readAllPCRs20` (tpm.go lines 252 and 264). -/
inductive PCRReadError where
  | readFail (e : Nat)
  | incomplete (got : Nat)
deriving DecidableEq

/-- The final length check (tpm.go lines 263-265). -/
def pcrFinal (out : List (Nat × List Nat)) :
    Except PCRReadError (List (Nat × List Nat)) :=
  if out.length = 24 then .ok out else .error (.incomplete out.length)

/-- The retry loop of `readAllPCRs20` (tpm.go lines 239-261): at round `i`
with `fuel` iterations left, request the missing indices, fail on a read
error, merge the returned map, and stop early once all 24 entries are
present (falling through to the final check, as `break` does). -/
def readAllPCRs20Loop (alg : Nat)
    (readPCRs : Nat → PCRSelection → Except Nat (List (Nat × List Nat))) :
    Nat → Nat → List (Nat × List Nat) → Except PCRReadError (List (Nat × List Nat))
  | _, 0, out => pcrFinal out
  | i, fuel + 1, out =>
    match readPCRs i { hash := alg, pcrs := pcrMissing out } with
    | .error e => .error (.readFail e)
    | .ok ret =>
      let out2 := pcrStoreAll out ret
      if out2.length = 24 then pcrFinal out2
      else readAllPCRs20Loop alg readPCRs (i + 1) fuel out2

/-- `readAllPCRs20` (tpm.go lines 232-268): 24 rounds starting from the
empty map. -/
def readAllPCRs20 (alg : Nat)
    (readPCRs : Nat → PCRSelection → Except Nat (List (Nat × List Nat))) :
    Except PCRReadError (List (Nat × List Nat)) :=
  readAllPCRs20Loop alg readPCRs 0 24 []

/-- The `out` map invariant: distinct keys, all below 24. -/
def GoodOut (m : List (Nat × List Nat)) : Prop :=
  (m.map Prod.fst).Nodup ∧ ∀ p ∈ m, p.1 < 24

/-- A key is looked up successfully exactly when it occurs among the keys. -/
theorem pcrLookupIsSome (k : Nat) (m : List (Nat × List Nat)) :
    (pcrLookup k m).isSome ↔ k ∈ m.map Prod.fst := by
  induction m with
  | nil => simp [pcrLookup]
  | cons p rest ih =>
    rcases p with ⟨k2, v⟩
    by_cases h : k2 = k
    · subst h
      simp [pcrLookup]
    · simp only [pcrLookup, if_neg h, List.map_cons, List.mem_cons, ih]
      constructor
      · intro hs
        exact Or.inr hs
      · intro hs
        rcases hs with hs | hs
        · exact absurd hs.symm h
        · exact hs

/-- Keys after a store: unchanged when the key was present, appended
otherwise. -/
theorem pcrStoreKeys (m : List (Nat × List Nat)) (k : Nat) (v : List Nat) :
    (pcrStore m k v).map Prod.fst =
      if k ∈ m.map Prod.fst then m.map Prod.fst else m.map Prod.fst ++ [k] := by
  induction m with
  | nil => simp [pcrStore]
  | cons p rest ih =>
    rcases p with ⟨k2, v2⟩
    by_cases h : k2 = k
    · subst h
      simp [pcrStore]
    · simp only [pcrStore, if_neg h, List.map_cons, ih]
      by_cases hmem : k ∈ rest.map Prod.fst
      · rw [if_pos hmem, if_pos]
        simp [hmem]
      · rw [if_neg hmem, if_neg]
        · simp
        · simp only [List.mem_cons]
          intro hcon
          rcases hcon with hcon | hcon
          · exact h hcon.symm
          · exact hmem hcon

/-- Every entry after a store is the stored pair or an original entry. -/
theorem pcrStoreMem (m : List (Nat × List Nat)) (k : Nat) (v : List Nat) :
    ∀ p ∈ pcrStore m k v, p = (k, v) ∨ p ∈ m := by
  induction m with
  | nil =>
    intro p hp
    simp [pcrStore] at hp
    exact Or.inl hp
  | cons q rest ih =>
    rcases q with ⟨k2, v2⟩
    intro p hp
    by_cases h : k2 = k
    · subst h
      rw [pcrStore, if_pos rfl] at hp
      rcases List.mem_cons.1 hp with hp1 | hp1
      · exact Or.inl hp1
      · exact Or.inr (List.mem_cons_of_mem _ hp1)
    · rw [pcrStore, if_neg h] at hp
      rcases List.mem_cons.1 hp with hp1 | hp1
      · exact Or.inr (by simp [hp1])
      · rcases ih p hp1 with hcase | hcase
        · exact Or.inl hcase
        · exact Or.inr (List.mem_cons_of_mem _ hcase)

/-- A store with an in-range key preserves the map invariant. -/
theorem goodOutStore (m : List (Nat × List Nat)) (k : Nat) (v : List Nat)
    (hm : GoodOut m) (hk : k < 24) : GoodOut (pcrStore m k v) := by
  constructor
  · rw [pcrStoreKeys]
    by_cases hmem : k ∈ m.map Prod.fst
    · rw [if_pos hmem]
      exact hm.1
    · rw [if_neg hmem]
      simp only [List.nodup_append, List.nodup_cons, List.not_mem_nil,
        not_false_iff, List.nodup_nil, and_true, true_and]
      constructor
      · exact hm.1
      · intro x hx
        simp only [List.mem_singleton]
        intro hxk
        subst hxk
        exact hmem hx
  · intro p hp
    rcases pcrStoreMem m k v p hp with hcase | hcase
    · subst hcase
      exact hk
    · exact hm.2 p hcase

/-- Merging a batch of in-range entries preserves the map invariant. -/
theorem goodOutStoreAll (ret : List (Nat × List Nat)) :
    ∀ m, GoodOut m → (∀ p ∈ ret, p.1 < 24) → GoodOut (pcrStoreAll m ret) := by
  induction ret with
  | nil =>
    intro m hm _
    exact hm
  | cons q rest ih =>
    intro m hm hret
    rw [pcrStoreAll, List.foldl_cons]
    exact ih _ (goodOutStore m q.1 q.2 hm (hret q (List.mem_cons_self _ _)))
      (fun p hp => hret p (List.mem_cons_of_mem _ hp))

/-- Pigeonhole: a 24-entry map satisfying the invariant has every index
`0..23`. -/
theorem goodOutComplete (m : List (Nat × List Nat))
    (hm : GoodOut m) (hlen : m.length = 24) :
    ∀ k, k < 24 → (pcrLookup k m).isSome := by
  intro k hk
  rw [pcrLookupIsSome]
  have hsub : (m.map Prod.fst).toFinset ⊆ Finset.range 24 := by
    intro x hx
    rw [List.mem_toFinset] at hx
    rcases List.mem_map.1 hx with ⟨p, hp, rfl⟩
    exact Finset.mem_range.2 (hm.2 p hp)
  have hcard : (m.map Prod.fst).toFinset.card = 24 := by
    rw [List.toFinset_card_of_nodup hm.1, List.length_map, hlen]
  have heq : (m.map Prod.fst).toFinset = Finset.range 24 :=
    Finset.eq_of_subset_of_card_le hsub (by rw [hcard, Finset.card_range])
  have hmemf : k ∈ (m.map Prod.fst).toFinset := by
    rw [heq]
    exact Finset.mem_range.2 hk
  exact List.mem_toFinset.1 hmemf

/-- Loop invariant: from any invariant-satisfying state, the loop either
fails or returns a 24-entry invariant-satisfying map. -/
theorem readAllPCRs20LoopSpec (alg : Nat)
    (readPCRs : Nat → PCRSelection → Except Nat (List (Nat × List Nat)))
    (hresp : ∀ i sel ret, readPCRs i sel = .ok ret → ∀ p ∈ ret, p.1 ∈ sel.pcrs) :
    ∀ fuel i out, GoodOut out →
      (∃ e, readAllPCRs20Loop alg readPCRs i fuel out = .error e) ∨
      (∃ m, readAllPCRs20Loop alg readPCRs i fuel out = .ok m ∧
        m.length = 24 ∧ GoodOut m) := by
  intro fuel
  induction fuel with
  | zero =>
    intro i out hout
    by_cases h24 : out.length = 24
    · right
      exact ⟨out, by rw [readAllPCRs20Loop, pcrFinal, if_pos h24], h24, hout⟩
    · left
      exact ⟨.incomplete out.length, by rw [readAllPCRs20Loop, pcrFinal, if_neg h24]⟩
  | succ fuel ih =>
    intro i out hout
    rcases hres : readPCRs i { hash := alg, pcrs := pcrMissing out } with e | ret
    · left
      refine ⟨.readFail e, ?_⟩
      rw [readAllPCRs20Loop, hres]
    · have hret : ∀ p ∈ ret, p.1 < 24 := by
        intro p hp
        have hin := hresp i _ ret hres p hp
        simp only [pcrMissing] at hin
        exact List.mem_range.1 (List.mem_filter.1 hin).1
      have hout2 : GoodOut (pcrStoreAll out ret) := goodOutStoreAll ret out hout hret
      by_cases h24 : (pcrStoreAll out ret).length = 24
      · right
        refine ⟨pcrStoreAll out ret, ?_, h24, hout2⟩
        rw [readAllPCRs20Loop, hres]
        simp only [if_pos h24]
        rw [pcrFinal, if_pos h24]
      · have := ih (i + 1) (pcrStoreAll out ret) hout2
        rcases this with ⟨e, he⟩ | ⟨m, hm, hlen, hgood⟩
        · left
          refine ⟨e, ?_⟩
          rw [readAllPCRs20Loop, hres]
          simp only [if_neg h24]
          exact he
        · right
          refine ⟨m, ?_, hlen, hgood⟩
          rw [readAllPCRs20Loop, hres]
          simp only [if_neg h24]
          exact hm

/-- The loop only consults the collaborator at rounds `i ≤ j < i + fuel`. -/
theorem readAllPCRs20LoopExt (alg : Nat)
    (r1 r2 : Nat → PCRSelection → Except Nat (List (Nat × List Nat))) :
    ∀ fuel i out, (∀ j sel, i ≤ j → j < i + fuel → r1 j sel = r2 j sel) →
      readAllPCRs20Loop alg r1 i fuel out = readAllPCRs20Loop alg r2 i fuel out := by
  intro fuel
  induction fuel with
  | zero =>
    intro i out _
    rfl
  | succ fuel ih =>
    intro i out hag
    have h1 : r1 i { hash := alg, pcrs := pcrMissing out } =
        r2 i { hash := alg, pcrs := pcrMissing out } :=
      hag i _ (Nat.le_refl i) (by omega)
    rw [readAllPCRs20Loop, readAllPCRs20Loop, h1]
    rcases r2 i { hash := alg, pcrs := pcrMissing out } with e | ret
    · rfl
    · simp only
      by_cases h24 : (pcrStoreAll out ret).length = 24
      · rw [if_pos h24, if_pos h24]
      · rw [if_neg h24, if_neg h24]
        exact ih (i + 1) (pcrStoreAll out ret) (fun j sel hj1 hj2 => hag j sel (by omega) (by omega))

/-- C2: whenever each `ReadPCRs` response only contains indices it was asked
for, `readAllPCRs20` (a) either fails or returns a map with exactly 24
entries holding a digest for every index `0..23`, never a smaller map;
(b) requests each round exactly the indices in `0..23` not yet obtained; and
(c) depends only on the responses of the first 24 rounds, so it never runs
past the 24-round bound. -/
theorem c2_read_all_pcrs_bounded_complete (alg : Nat)
    (readPCRs : Nat → PCRSelection → Except Nat (List (Nat × List Nat)))
    (hresp : ∀ i sel ret, readPCRs i sel = .ok ret → ∀ p ∈ ret, p.1 ∈ sel.pcrs) :
    ((∃ e, readAllPCRs20 alg readPCRs = .error e) ∨
      (∃ m, readAllPCRs20 alg readPCRs = .ok m ∧ m.length = 24 ∧
        ∀ k, k < 24 → (pcrLookup k m).isSome)) ∧
    (∀ out k, k ∈ pcrMissing out ↔ (k < 24 ∧ (pcrLookup k out).isNone)) ∧
    (∀ r2, (∀ j sel, j < 24 → readPCRs j sel = r2 j sel) →
      readAllPCRs20 alg readPCRs = readAllPCRs20 alg r2) := by
  refine ⟨?_, ?_, ?_⟩
  · have hstart : GoodOut [] := ⟨List.nodup_nil, by intro p hp; simp at hp⟩
    rcases readAllPCRs20LoopSpec alg readPCRs hresp 24 0 [] hstart with ⟨e, he⟩ | ⟨m, hm, hlen, hgood⟩
    · exact Or.inl ⟨e, he⟩
    · exact Or.inr ⟨m, hm, hlen, goodOutComplete m hgood hlen⟩
  · intro out k
    simp [pcrMissing, List.mem_filter, List.mem_range]
  · intro r2 hag
    exact readAllPCRs20LoopExt alg readPCRs r2 24 0 []
      (fun j sel hj1 hj2 => hag j sel (by omega))

/-- A collaborator that satisfies every round fully: it returns a zero
digest for every requested index. -/
def readPCRsAll : Nat → PCRSelection → Except Nat (List (Nat × List Nat)) :=
  fun _ sel => .ok (sel.pcrs.map fun k => (k, [0]))

/-- Witness for `c2_read_all_pcrs_bounded_complete` at the concrete
collaborator `readPCRsAll`. -/
theorem c2_read_all_pcrs_bounded_complete_witness :
    ((∃ e, readAllPCRs20 11 readPCRsAll = .error e) ∨
      (∃ m, readAllPCRs20 11 readPCRsAll = .ok m ∧ m.length = 24 ∧
        ∀ k, k < 24 → (pcrLookup k m).isSome)) ∧
    (∀ out k, k ∈ pcrMissing out ↔ (k < 24 ∧ (pcrLookup k out).isNone)) ∧
    (∀ r2, (∀ j sel, j < 24 → readPCRsAll j sel = r2 j sel) →
      readAllPCRs20 11 readPCRsAll = readAllPCRs20 11 r2) := by
  refine c2_read_all_pcrs_bounded_complete 11 readPCRsAll ?_
  intro i sel ret h p hp
  rw [readPCRsAll] at h
  injection h with h
  subst h
  rcases List.mem_map.1 hp with ⟨a, ha, rfl⟩
  exact ha

/-! ## C10: `LoadAIK` / `AIK.Serialize` round-trip

Only the `LoadAIK` wrapper (tpm.go lines 270-276) is in the sources; the
bodies of `TPM.loadAIK` and `AIK.Serialize` are not, so the container format
is modelled from the spec: a version-tagged opaque container whose
version-2.0 fields are `{public_blob, creation_data, attestation_data,
signature_data}` and whose version-1.2 fields are `{public_blob,
auxiliary_data}` (spec sections 4.3 and 6, and the wire schema's
`TPM_12 = 1`, `TPM_20 = 2` tags), which must round-trip exactly through
`Load` and fail with a format error for any blob not produced by a matching
`Serialize` call. -/

/-- TPM versions (wire schema: `TPM_12 = 1`, `TPM_20 = 2`). -/
inductive TPMVer where
  | v12
  | v20
deriving DecidableEq

/-- The version tag byte of a serialized AIK blob. -/
def verTag : TPMVer → Nat
  | .v12 => 1
  | .v20 => 2

/-- The session (`attest.TPM`), fixed to one version at open time. -/
structure TPM where
  version : TPMVer

/-- Deserialized AIK data: the tagged union of the spec's version-specific
field sets. -/
inductive AIKData where
  | tpm12 (publicBlob aux : List Nat)
  | tpm20 (publicBlob creationData attestationData signatureData : List Nat)
deriving DecidableEq

/-- The variant tag of an AIK value. -/
def aikVersion : AIKData → TPMVer
  | .tpm12 _ _ => .v12
  | .tpm20 _ _ _ _ => .v20

/-- 4-byte big-endian encoding of a length below `2^32`. -/
def be32 (n : Nat) : List Nat :=
  [n / 16777216 % 256, n / 65536 % 256, n / 256 % 256, n % 256]

/-- A length-prefixed field of the opaque container. -/
def encodeField (bs : List Nat) : List Nat := be32 bs.length ++ bs

/-- Decode one length-prefixed field: read a canonical 4-byte big-endian
length, then that many bytes; fail otherwise. -/
def decodeField : List Nat → Option (List Nat × List Nat)
  | b0 :: b1 :: b2 :: b3 :: rest =>
    if b0 < 256 ∧ b1 < 256 ∧ b2 < 256 ∧ b3 < 256 then
      if b0 * 16777216 + b1 * 65536 + b2 * 256 + b3 ≤ rest.length then
        some (rest.take (b0 * 16777216 + b1 * 65536 + b2 * 256 + b3),
          rest.drop (b0 * 16777216 + b1 * 65536 + b2 * 256 + b3))
      else none
    else none
  | _ => none

/-- Modelled from the spec: `AIK.Serialize` is not among the sources under
`src/` (only its `LoadAIK` counterpart's wrapper is).  The spec calls the
blob a version-tagged opaque container with the version-specific field sets
above; this model uses the wire schema's version tags and length-prefixed
fields. -/
def serializeAIK : AIKData → List Nat
  | .tpm12 pb aux => verTag .v12 :: (encodeField pb ++ encodeField aux)
  | .tpm20 pb cd ad sd =>
    verTag .v20 :: (encodeField pb ++ encodeField cd ++ encodeField ad ++ encodeField sd)

/-- Modelled from the spec: `TPM.loadAIK`, the private body behind `LoadAIK`
(tpm.go line 275), is not among the sources under `src/`.  Per the spec it
deserializes a version-tagged blob previously produced by this manager for
the session's version and fails with a format error (`none`) for any other
blob: the version tag must match the session, every field must decode, and
the blob must end exactly after the last field. -/
def loadAIKFields : TPMVer → List Nat → Option AIKData
  | .v12, rest =>
    match decodeField rest with
    | none => none
    | some (pb, r1) =>
      match decodeField r1 with
      | none => none
      | some (aux, r2) =>
        if r2 = [] then some (.tpm12 pb aux) else none
  | .v20, rest =>
    match decodeField rest with
    | none => none
    | some (pb, r1) =>
      match decodeField r1 with
      | none => none
      | some (cd, r2) =>
        match decodeField r2 with
        | none => none
        | some (ad, r3) =>
          match decodeField r3 with
          | none => none
          | some (sd, r4) =>
            if r4 = [] then some (.tpm20 pb cd ad sd) else none

/-- The tag check and dispatch of the modelled loader: the blob must be
non-empty and start with the session's version tag. -/
def loadAIKCore (v : TPMVer) : List Nat → Option AIKData
  | [] => none
  | t :: rest => if t = verTag v then loadAIKFields v rest else none

/-- `TPM.LoadAIK` (tpm.go lines 270-276): delegate to the private loader. -/
def LoadAIK (t : TPM) (opaqueBlob : List Nat) : Option AIKData :=
  loadAIKCore t.version opaqueBlob

/-- Well-formed AIK data: every field fits the 32-bit length prefix. -/
def AIKWf : AIKData → Prop
  | .tpm12 pb aux => pb.length < 4294967296 ∧ aux.length < 4294967296
  | .tpm20 pb cd ad sd => pb.length < 4294967296 ∧ cd.length < 4294967296 ∧
      ad.length < 4294967296 ∧ sd.length < 4294967296

instance : DecidablePred AIKWf := by
  intro k
  rcases k with ⟨pb, aux⟩ | ⟨pb, cd, ad, sd⟩ <;> { rw [AIKWf]; infer_instance }

/-- Decoding inverts encoding of a single field, for any remainder. -/
theorem decodeFieldEncodeField (bs r : List Nat) (h : bs.length < 4294967296) :
    decodeField (encodeField bs ++ r) = some (bs, r) := by
  have hshape : encodeField bs ++ r =
      bs.length / 16777216 % 256 :: bs.length / 65536 % 256 ::
        bs.length / 256 % 256 :: bs.length % 256 :: (bs ++ r) := by
    rw [encodeField, be32]
    simp
  rw [hshape, decodeField]
  have hn : bs.length / 16777216 % 256 * 16777216 + bs.length / 65536 % 256 * 65536 +
      bs.length / 256 % 256 * 256 + bs.length % 256 = bs.length := by
    omega
  rw [if_pos ⟨by omega, by omega, by omega, by omega⟩]
  rw [hn]
  rw [if_pos (by rw [List.length_append]; omega)]
  rw [List.take_left, List.drop_left]

/-- Decoding is sound: any successful decode came from the canonical
encoding of the decoded field followed by the remainder. -/
theorem decodeFieldSound (b f r : List Nat) (h : decodeField b = some (f, r)) :
    b = encodeField f ++ r ∧ f.length < 4294967296 := by
  match b with
  | [] => exact Option.noConfusion h
  | [b0] => exact Option.noConfusion h
  | [b0, b1] => exact Option.noConfusion h
  | [b0, b1, b2] => exact Option.noConfusion h
  | b0 :: b1 :: b2 :: b3 :: rest =>
    rw [decodeField] at h
    by_cases hb : b0 < 256 ∧ b1 < 256 ∧ b2 < 256 ∧ b3 < 256
    · rw [if_pos hb] at h
      by_cases hle : b0 * 16777216 + b1 * 65536 + b2 * 256 + b3 ≤ rest.length
      · rw [if_pos hle] at h
        injection h with h
        have hf : f = rest.take (b0 * 16777216 + b1 * 65536 + b2 * 256 + b3) :=
          (congrArg Prod.fst h).symm
        have hr : r = rest.drop (b0 * 16777216 + b1 * 65536 + b2 * 256 + b3) :=
          (congrArg Prod.snd h).symm
        have hflen : f.length = b0 * 16777216 + b1 * 65536 + b2 * 256 + b3 := by
          rw [hf, List.length_take]
          omega
        constructor
        · rw [encodeField, be32, hflen]
          have h0 : (b0 * 16777216 + b1 * 65536 + b2 * 256 + b3) / 16777216 % 256 = b0 := by
            omega
          have h1 : (b0 * 16777216 + b1 * 65536 + b2 * 256 + b3) / 65536 % 256 = b1 := by
            omega
          have h2 : (b0 * 16777216 + b1 * 65536 + b2 * 256 + b3) / 256 % 256 = b2 := by
            omega
          have h3 : (b0 * 16777216 + b1 * 65536 + b2 * 256 + b3) % 256 = b3 := by
            omega
          rw [h0, h1, h2, h3, hf, hr]
          simp [List.take_append_drop]
        · rw [hflen]
          omega
      · rw [if_neg hle] at h
        exact Option.noConfusion h
    · rw [if_neg hb] at h
      exact Option.noConfusion h

/-- C10: for every session, loading accepts exactly the blobs produced by a
matching serialization: every well-formed AIK of the session's version
round-trips through `Serialize` then `LoadAIK`, and any blob `LoadAIK`
accepts is the serialization of the returned AIK, whose version matches the
session — every other blob is rejected with a format error. -/
theorem c10_load_accepts_exactly_serialized (t : TPM) :
    (∀ k, AIKWf k → aikVersion k = t.version →
      LoadAIK t (serializeAIK k) = some k) ∧
    (∀ b k, LoadAIK t b = some k → b = serializeAIK k ∧ aikVersion k = t.version) := by
  constructor
  · intro k hwf hver
    rcases k with ⟨pb, aux⟩ | ⟨pb, cd, ad, sd⟩
    · rw [AIKWf] at hwf
      rw [aikVersion] at hver
      have hd1 : decodeField (encodeField pb ++ encodeField aux) =
          some (pb, encodeField aux) := decodeFieldEncodeField pb _ hwf.1
      have hd2 : decodeField (encodeField aux) = some (aux, []) := by
        have := decodeFieldEncodeField aux [] hwf.2
        simpa using this
      rw [LoadAIK, ← hver]
      simp [serializeAIK, loadAIKCore, loadAIKFields, hd1, hd2]
    · rw [AIKWf] at hwf
      rw [aikVersion] at hver
      have hd1 : decodeField
          (encodeField pb ++ (encodeField cd ++ (encodeField ad ++ encodeField sd))) =
          some (pb, encodeField cd ++ (encodeField ad ++ encodeField sd)) :=
        decodeFieldEncodeField pb _ hwf.1
      have hd2 : decodeField (encodeField cd ++ (encodeField ad ++ encodeField sd)) =
          some (cd, encodeField ad ++ encodeField sd) :=
        decodeFieldEncodeField cd _ hwf.2.1
      have hd3 : decodeField (encodeField ad ++ encodeField sd) =
          some (ad, encodeField sd) := decodeFieldEncodeField ad _ hwf.2.2.1
      have hd4 : decodeField (encodeField sd) = some (sd, []) := by
        have := decodeFieldEncodeField sd [] hwf.2.2.2
        simpa using this
      rw [LoadAIK, ← hver]
      simp [serializeAIK, loadAIKCore, loadAIKFields, hd1, hd2, hd3, hd4]
  · intro b k hload
    rw [LoadAIK] at hload
    match b with
    | [] => exact Option.noConfusion hload
    | tg :: rest =>
      rw [loadAIKCore] at hload
      by_cases htg : tg = verTag t.version
      · rw [if_pos htg] at hload
        rcases hv : t.version with _ | _
        · rw [hv, loadAIKFields] at hload
          split at hload
          · exact Option.noConfusion hload
          · rename_i pb r1 h1
            split at hload
            · exact Option.noConfusion hload
            · rename_i aux r2 h2
              split at hload
              · rename_i hnil
                injection hload with hload
                subst hload
                rcases decodeFieldSound rest pb r1 h1 with ⟨hrest, _⟩
                rcases decodeFieldSound r1 aux r2 h2 with ⟨hr1, _⟩
                constructor
                · rw [serializeAIK, htg, hv, hrest, hr1, hnil]
                  simp
                · rw [aikVersion]
              · exact Option.noConfusion hload
        · rw [hv, loadAIKFields] at hload
          split at hload
          · exact Option.noConfusion hload
          · rename_i pb r1 h1
            split at hload
            · exact Option.noConfusion hload
            · rename_i cd r2 h2
              split at hload
              · exact Option.noConfusion hload
              · rename_i ad r3 h3
                split at hload
                · exact Option.noConfusion hload
                · rename_i sd r4 h4
                  split at hload
                  · rename_i hnil
                    injection hload with hload
                    subst hload
                    rcases decodeFieldSound rest pb r1 h1 with ⟨hrest, _⟩
                    rcases decodeFieldSound r1 cd r2 h2 with ⟨hr1, _⟩
                    rcases decodeFieldSound r2 ad r3 h3 with ⟨hr2, _⟩
                    rcases decodeFieldSound r3 sd r4 h4 with ⟨hr3, _⟩
                    constructor
                    · rw [serializeAIK, htg, hv, hrest, hr1, hr2, hr3, hnil]
                      simp
                    · rw [aikVersion]
                  · exact Option.noConfusion hload
      · rw [if_neg htg] at hload
        exact Option.noConfusion hload

/-- Witness for `c10_load_accepts_exactly_serialized`: a concrete well-formed
TPM 2.0 AIK round-trips on a version-2.0 session, exercised through the
theorem's first conjunct. -/
theorem c10_load_accepts_exactly_serialized_witness :
    LoadAIK { version := .v20 } (serializeAIK (.tpm20 [1] [2] [] [3])) =
      some (.tpm20 [1] [2] [] [3]) :=
  (c10_load_accepts_exactly_serialized { version := .v20 }).1
    (.tpm20 [1] [2] [] [3]) (by decide) (by decide)

end Attest
